import Mathlib

/-!
# Verification of the Friday Draft Edit Analyzer content script

Shallow embedding of `analyzer/lengthChecker.js` (the content-script part):
the paste-pattern draft detection state machine of `monitorComposeWindow`,
the debounced analysis trigger, `calculateEditPercentage`,
`levenshteinDistance`, `analyzeEdits` with its heuristic fallback
`categorizeLengthChange`, and the storage operations `storeDraft` and
`updateDraftWithAnalysis`.

Modelling conventions:
* Texts are `List Char` (JS strings; `.length` is the list length).
* Times (`Date.now()` values) are `ℤ` milliseconds.
* JS numeric division is modelled over `ℚ`; `Math.round` is `jsRound`.
* The one JS `NaN` that matters (`0/0` inside `calculateEditPercentage`
  when both strings are empty) is modelled by `Option`: `none` is `NaN`.
* Impure inputs (`generateDraftId()`, `new Date().toISOString()`, the
  stored API key, and the outcome of the `fetch` call) are passed in as
  explicit oracle arguments.
-/

namespace FridayAnalyzer

/-- The character class of the JS regex `\s` (ECMAScript WhiteSpace and
LineTerminator), used by every `split(/\s+/)` in the source. -/
def isJsWhitespace (c : Char) : Bool :=
  c = ' ' || c = '\t' || c = '\n' || c = '\r' ||
  c.val = 11 || c.val = 12 ||
  c.val = 0x00A0 || c.val = 0x1680 ||
  (0x2000 ≤ c.val && c.val ≤ 0x200A) ||
  c.val = 0x2028 || c.val = 0x2029 || c.val = 0x202F ||
  c.val = 0x205F || c.val = 0x3000 || c.val = 0xFEFF

/-- Number of maximal runs of characters satisfying `p`; the `inRun` flag
records whether the previous character satisfied `p`. -/
def countRunsAux (p : Char → Bool) : Bool → List Char → ℕ
  | _, [] => 0
  | inRun, c :: cs =>
    if p c then (if inRun then 0 else 1) + countRunsAux p true cs
    else countRunsAux p false cs

/-- Source `text.split(/\s+/).filter(w => w.length > 0).length`: the word count
used by `monitorComposeWindow` and `analyzeCurrentEdits`.  Each nonempty
field of the split is exactly one maximal run of non-whitespace. -/
def wordCount (s : List Char) : ℕ :=
  countRunsAux (fun c => !isJsWhitespace c) false s

/-- Number of maximal whitespace runs in `s`. -/
def wsRuns (s : List Char) : ℕ :=
  countRunsAux isJsWhitespace false s

/-- Source `text.split(/\s+/).length` WITHOUT filtering empties, as used by
`categorizeLengthChange`.  JS `String.prototype.split` keeps the (possibly
empty) fields before the first and after the last separator run, so the
field count is (number of separator runs) + 1; `"".split(/\s+/)` is
`[""]`. -/
def jsSplitWsCount (s : List Char) : ℕ :=
  wsRuns s + 1

/-- The DP table of `levenshteinDistance` in the source: `levMatrix s1 s2 i j`
is `matrix[i][j]`, the value the nested loops store for row `i`, column `j`
(distance between the first `i` chars of `s1` and the first `j` chars of
`s2`).  `str1[i-1] === str2[j-1]` is modelled by `s1.get? i = s2.get? j`
(out-of-range JS indexing yields `undefined === undefined`, i.e. equal;
the loops never index out of range). -/
def levMatrix (s1 s2 : List Char) : ℕ → ℕ → ℕ
  | 0, j => j
  | i + 1, 0 => i + 1
  | i + 1, j + 1 =>
    let cost : ℕ := if s1.get? i = s2.get? j then 0 else 1
    min (levMatrix s1 s2 i (j + 1) + 1)
      (min (levMatrix s1 s2 (i + 1) j + 1) (levMatrix s1 s2 i j + cost))
  termination_by i j => (i, j)

/-- Source `levenshteinDistance(str1, str2)`: returns `matrix[len1][len2]`. -/
def levenshteinDistance (s1 s2 : List Char) : ℕ :=
  levMatrix s1 s2 s1.length s2.length

/-- JS `Math.round`: round half towards positive infinity. -/
def jsRound (q : ℚ) : ℤ :=
  ⌊q + 1 / 2⌋

/-- Source `calculateEditPercentage(original, final)`:
`Math.round((distance / maxLength) * 100)`.  When both strings are empty
the JS expression is `Math.round(0/0 * 100) = NaN`; `none` models that
`NaN` (there is no special case in the source). -/
def calculateEditPercentage (original final : List Char) : Option ℤ :=
  let distance := levenshteinDistance original final
  let maxLength := max original.length final.length
  if maxLength = 0 then none
  else some (jsRound ((distance : ℚ) / (maxLength : ℚ) * 100))

/-- Source `categorizeLengthChange(original, final)`: word-count ratio heuristic
over the UNFILTERED `split(/\s+/)` counts.  `origWords ≥ 1` always, so the
division is well defined. -/
def categorizeLengthChange (original final : List Char) : String :=
  let origWords : ℚ := jsSplitWsCount original
  let finalWords : ℚ := jsSplitWsCount final
  let change : ℚ := (finalWords - origWords) / origWords * 100
  if change > 20 then "Expanded"
  else if change < -20 then "Shortened"
  else "No significant change"

/-- The four-field verdict object produced by `analyzeEdits` (either parsed
from the OpenAI response or built by the fallback branches). -/
structure EditAnalysis where
  toneChange : String
  ctaChange : String
  lengthChange : String
  summary : String
deriving DecidableEq, Repr

/-- Outcome of the `fetch` to the OpenAI endpoint, as seen by the
`try`/`catch` in `analyzeEdits`:  `success r` means `response.ok` held and
`JSON.parse` produced `r`; `httpError s` means `!response.ok` (the thrown
`OpenAI API error` lands in the catch); `networkFailure` means `fetch`
itself rejected; `parseFailure` means `JSON.parse` (or the response-shape
access) threw. -/
inductive NetOutcome where
  | success (result : EditAnalysis)
  | httpError (status : ℕ)
  | networkFailure
  | parseFailure
deriving DecidableEq, Repr

/-- Source `analyzeEdits(originalText, finalText, editPercentage, sendDelay)`.
The stored API key (`getOpenAIKey` resolves `''` when none is configured)
and the network outcome are oracle arguments.  Returns the verdict
together with the number of outbound network calls performed.
`editPercentage` and `sendDelay` only appear inside the prompt text. -/
def analyzeEdits (apiKey : String) (net : NetOutcome)
    (originalText finalText : List Char) (_editPercentage : Option ℤ)
    (_sendDelay : ℤ) : EditAnalysis × ℕ :=
  if apiKey = "" then
    ({ toneChange := "Unable to analyze (no API key)"
       ctaChange := "Unable to analyze (no API key)"
       lengthChange := categorizeLengthChange originalText finalText
       summary := "No API key configured" }, 0)
  else
    match net with
    | .success r => (r, 1)
    | _ =>
      ({ toneChange := "Unable to analyze (API error)"
         ctaChange := "Unable to analyze (API error)"
         lengthChange := categorizeLengthChange originalText finalText
         summary := "Analysis failed" }, 1)

/-- The in-memory `currentDraft` object built by `handleFridayDraftDetected`
(minus the DOM `textBox` handle, which carries no data). -/
structure Draft where
  id : String
  originalText : List Char
  originalWordCount : ℕ
  generatedAt : String
  timestamp : ℤ
deriving DecidableEq, Repr, Inhabited

/-- A record in the `drafts` list of `chrome.storage.local`.  The analysis
fields are absent (`none`) until `updateDraftWithAnalysis` first merges
them in. -/
structure DraftRecord where
  id : String
  originalText : List Char
  originalWordCount : ℕ
  generatedAt : String
  timestamp : ℤ
  status : String
  finalText : Option (List Char) := none
  finalWordCount : Option ℕ := none
  sentAt : Option String := none
  sendDelay : Option ℤ := none
  editPercentage : Option ℤ := none
  toneChange : Option String := none
  ctaChange : Option String := none
  lengthChange : Option String := none
  summary : Option String := none
deriving DecidableEq, Repr, Inhabited

/-- The `analysisData` object `analyzeCurrentEdits` passes to
`updateDraftWithAnalysis`.  `status` is `Option`al because the source
reads it as `analysisData.status || 'editing'`. -/
structure AnalysisData where
  finalText : List Char
  finalWordCount : ℕ
  sentAt : String
  sendDelay : ℤ
  editPercentage : ℤ
  toneChange : String
  ctaChange : String
  lengthChange : String
  summary : String
  status : Option String
deriving DecidableEq, Repr, Inhabited

/-- The record rewrite `drafts[draftIndex] = { ...drafts[draftIndex], ... }`
performed by `updateDraftWithAnalysis`.  `status || 'editing'` means a
missing or empty-string (falsy) status falls back to `'editing'`. -/
def mergeAnalysis (r : DraftRecord) (a : AnalysisData) : DraftRecord :=
  { r with
    finalText := some a.finalText
    finalWordCount := some a.finalWordCount
    sentAt := some a.sentAt
    sendDelay := some a.sendDelay
    editPercentage := some a.editPercentage
    toneChange := some a.toneChange
    ctaChange := some a.ctaChange
    lengthChange := some a.lengthChange
    summary := some a.summary
    status :=
      match a.status with
      | some s => if s = "" then "editing" else s
      | none => "editing" }

/-- Source `updateDraftWithAnalysis(draftId, analysisData)` acting on the stored
list:  `findIndex` locates the first record with the given id; if found,
that slot is rewritten via `mergeAnalysis`, otherwise (index `-1`) the
list is written back unchanged. -/
def updateDraftWithAnalysis (draftId : String) (a : AnalysisData)
    (drafts : List DraftRecord) : List DraftRecord :=
  match drafts.findIdx? (fun d => d.id == draftId) with
  | none => drafts
  | some i => drafts.set i (mergeAnalysis (drafts.getD i default) a)

/-- Source `storeDraft(draft)`: builds the `pending` record and appends it to the
stored `drafts` list. -/
def storeDraft (draft : Draft) (drafts : List DraftRecord) : List DraftRecord :=
  drafts ++
    [{ id := draft.id
       originalText := draft.originalText
       originalWordCount := draft.originalWordCount
       generatedAt := draft.generatedAt
       timestamp := draft.timestamp
       status := "pending" }]

/-- Source `analyzeCurrentEdits(currentText)`, run when the debounce timer fires
at time `now`.  `iso` is the `new Date().toISOString()` value used for
`sentAt`.  Returns (classifier invoked?, outbound network calls, new
stored list).  Below the 10% threshold (including the `NaN` case, where
`NaN >= 10` is false) nothing happens. -/
def analyzeCurrentEditsStep (currentDraft : Option Draft)
    (currentText : List Char) (now : ℤ) (iso : String) (apiKey : String)
    (net : NetOutcome) (drafts : List DraftRecord) :
    Bool × ℕ × List DraftRecord :=
  match currentDraft with
  | none => (false, 0, drafts)
  | some d =>
    match calculateEditPercentage d.originalText currentText with
    | none => (false, 0, drafts)
    | some p =>
      if p ≥ 10 then
        let wc := wordCount currentText
        let timeSinceGeneration := now - d.timestamp
        let (analysis, calls) :=
          analyzeEdits apiKey net d.originalText currentText (some p)
            timeSinceGeneration
        let data : AnalysisData :=
          { finalText := currentText
            finalWordCount := wc
            sentAt := iso
            sendDelay := timeSinceGeneration
            editPercentage := p
            toneChange := analysis.toneChange
            ctaChange := analysis.ctaChange
            lengthChange := analysis.lengthChange
            summary := analysis.summary
            status := some "editing" }
        (true, calls, updateDraftWithAnalysis d.id data drafts)
      else (false, 0, drafts)

/-- The per-compose-window local state of `monitorComposeWindow`:
`lastText`, `lastChangeTime`, `fridayDraftDetected`, `analysisTimer`.
The timer is modelled as the absolute fire time together with the
`currentText` the `setTimeout` closure captured. -/
structure SurfaceState where
  lastText : List Char
  lastChangeTime : ℤ
  fridayDraftDetected : Bool
  analysisTimer : Option (ℤ × List Char)
deriving DecidableEq, Repr, Inhabited

/-- Everything one invocation of the `MutationObserver` callback can
change, plus whether `handleFridayDraftDetected` was invoked. -/
structure StepResult where
  surface : SurfaceState
  currentDraft : Option Draft
  drafts : List DraftRecord
  fired : Bool
deriving DecidableEq, Repr

/-- One invocation of the `MutationObserver` callback inside
`monitorComposeWindow`, observing `text` at time `t`.  `gid` and `iso` are
the oracle values of `generateDraftId()` / `new Date().toISOString()`
consumed if detection fires.  Faithful to the source order: the identical-
text early return, the paste-pattern detection (which runs
`handleFridayDraftDetected`, setting `currentDraft` and appending via
`storeDraft`), then the debounce reschedule, then the `lastText` /
`lastChangeTime` update. -/
def observerStep (gid iso : String) (s : SurfaceState)
    (currentDraft : Option Draft) (drafts : List DraftRecord)
    (t : ℤ) (text : List Char) : StepResult :=
  if text = s.lastText then
    { surface := s, currentDraft := currentDraft, drafts := drafts,
      fired := false }
  else
    let wc := wordCount text
    let timeDelta := t - s.lastChangeTime
    let textAdded : ℤ := (text.length : ℤ) - (s.lastText.length : ℤ)
    let fire := !s.fridayDraftDetected && decide (wc ≥ 30) &&
      decide (textAdded > 100) && decide (timeDelta < 2000)
    let detected := s.fridayDraftDetected || fire
    let draft' :=
      if fire then
        some { id := gid, originalText := text,
               originalWordCount := wordCount text, generatedAt := iso,
               timestamp := t }
      else currentDraft
    let drafts' :=
      if fire then
        storeDraft { id := gid, originalText := text,
                     originalWordCount := wordCount text,
                     generatedAt := iso, timestamp := t } drafts
      else drafts
    let timer' :=
      if detected && draft'.isSome then some (t + 3000, text)
      else s.analysisTimer
    { surface :=
        { lastText := text, lastChangeTime := t,
          fridayDraftDetected := detected, analysisTimer := timer' }
      currentDraft := draft'
      drafts := drafts'
      fired := fire }

/-- Oracle inputs for a whole trace: `generateDraftId()` and
`new Date().toISOString()` as functions of the wall-clock time at which
they are read, the stored API key, and the outcome of the network call
initiated at a given time. -/
structure Oracles where
  gid : ℤ → String
  iso : ℤ → String
  apiKey : String
  net : ℤ → NetOutcome

/-- Whole-subsystem state threaded through a trace of content-change
events, also accumulating the `analyzeCurrentEdits` invocations (fire
time and the captured text each ran against) and the number of
`handleFridayDraftDetected` invocations. -/
structure TraceState where
  surface : SurfaceState
  currentDraft : Option Draft
  drafts : List DraftRecord
  analyses : List (ℤ × List Char)
  detections : ℕ
deriving Repr

/-- Run the pending debounce timer if it matures no later than `deadline`
(the JS event loop runs a due `setTimeout` callback before later DOM
events).  The callback is `analyzeCurrentEdits(capturedText)`. -/
def fireTimerIfDue (o : Oracles) (deadline : ℤ) (st : TraceState) :
    TraceState :=
  match st.surface.analysisTimer with
  | none => st
  | some (ft, cap) =>
    if ft ≤ deadline then
      let r := analyzeCurrentEditsStep st.currentDraft cap ft (o.iso ft)
        o.apiKey (o.net ft) st.drafts
      { st with
        surface := { st.surface with analysisTimer := none }
        drafts := r.2.2
        analyses := st.analyses ++ [(ft, cap)] }
    else st

/-- Process one content-change event: first run any matured timer, then
the `MutationObserver` callback. -/
def traceStep (o : Oracles) (st : TraceState) (ev : ℤ × List Char) :
    TraceState :=
  let st := fireTimerIfDue o ev.1 st
  let r := observerStep (o.gid ev.1) (o.iso ev.1) st.surface
    st.currentDraft st.drafts ev.1 ev.2
  { surface := r.surface
    currentDraft := r.currentDraft
    drafts := r.drafts
    analyses := st.analyses
    detections := st.detections + (if r.fired then 1 else 0) }

/-- After the last event, silence: the pending timer (if any) eventually
matures and fires. -/
def flushTimer (o : Oracles) (st : TraceState) : TraceState :=
  match st.surface.analysisTimer with
  | none => st
  | some (ft, _) => fireTimerIfDue o ft st

/-- Run a full trace of content-change events followed by unbounded
silence. -/
def runTrace (o : Oracles) (st : TraceState)
    (events : List (ℤ × List Char)) : TraceState :=
  flushTimer o (events.foldl (traceStep o) st)

/-- Predicate `chainOk prevText prevTime events`: each event's text differs from the
previously observed text, times strictly increase, and consecutive gaps
stay below the 3000 ms quiet duration. -/
def chainOk (prevText : List Char) (prevTime : ℤ) :
    List (ℤ × List Char) → Bool
  | [] => true
  | (t, s) :: rest =>
    decide (s ≠ prevText) && decide (prevTime < t) &&
      decide (t - prevTime < 3000) && chainOk s t rest

/-- The per-window tracking state as initialized at the top of
`monitorComposeWindow`: `lastText = ''`, `lastChangeTime = Date.now()`,
detection flag false, no pending timer. -/
def initialSurface (now : ℤ) : SurfaceState :=
  { lastText := []
    lastChangeTime := now
    fridayDraftDetected := false
    analysisTimer := none }

/-- A 40-word, 250-character text: 39 words of five letters (each
followed by a single space) plus one 16-letter word. -/
def sampleDraft : List Char :=
  (List.replicate 39 ("abcde ".toList)).flatten ++ "abcdefghijklmnop".toList

/-!
## Specification side: character-level edit scripts

`Edits A B n` holds when `A` can be transformed into `B` by an alignment
using exactly `n` single-character operations: each position is either
copied unchanged (free), substituted, inserted, or deleted.  The minimum
`n` with `Edits A B n` is the textbook edit distance. -/
inductive Edits : List Char → List Char → ℕ → Prop where
  | nil : Edits [] [] 0
  | copy (a : Char) {xs ys : List Char} {n : ℕ} :
      Edits xs ys n → Edits (a :: xs) (a :: ys) n
  | subst (a b : Char) {xs ys : List Char} {n : ℕ} :
      Edits xs ys n → Edits (a :: xs) (b :: ys) (n + 1)
  | ins (b : Char) {xs ys : List Char} {n : ℕ} :
      Edits xs ys n → Edits xs (b :: ys) (n + 1)
  | del (a : Char) {xs ys : List Char} {n : ℕ} :
      Edits xs ys n → Edits (a :: xs) ys (n + 1)

/-- The textbook recursive form of the Levenshtein distance, peeling the
strings from the left; the bridge between the source's DP table and the
`Edits` characterization. -/
def levRec : List Char → List Char → ℕ
  | [], ys => ys.length
  | xs, [] => xs.length
  | x :: xs, y :: ys =>
    min (levRec xs (y :: ys) + 1)
      (min (levRec (x :: xs) ys + 1)
        (levRec xs ys + if x = y then 0 else 1))
  termination_by xs ys => xs.length + ys.length

theorem levRec_nil_left (ys : List Char) : levRec [] ys = ys.length := by
  cases ys <;> simp [levRec]

theorem levRec_nil_right (xs : List Char) : levRec xs [] = xs.length := by
  cases xs <;> simp [levRec]

theorem levRec_cons (x y : Char) (xs ys : List Char) :
    levRec (x :: xs) (y :: ys) =
      min (levRec xs (y :: ys) + 1)
        (min (levRec (x :: xs) ys + 1)
          (levRec xs ys + if x = y then 0 else 1)) := by
  simp [levRec]

theorem edits_refl (xs : List Char) : Edits xs xs 0 := by
  induction xs with
  | nil => exact Edits.nil
  | cons a xs ih => exact Edits.copy a ih

theorem edits_nil_left (ys : List Char) : Edits [] ys ys.length := by
  induction ys with
  | nil => exact Edits.nil
  | cons b ys ih => exact Edits.ins b ih

theorem edits_nil_right (xs : List Char) : Edits xs [] xs.length := by
  induction xs with
  | nil => exact Edits.nil
  | cons a xs ih => exact Edits.del a ih

theorem levRec_le_of_edits {xs ys : List Char} {n : ℕ}
    (h : Edits xs ys n) : levRec xs ys ≤ n := by
  induction h with
  | nil => simp [levRec_nil_left]
  | copy a h ih =>
    rw [levRec_cons]
    simp only [eq_self_iff_true, if_true, Nat.add_zero]
    omega
  | subst a b h ih =>
    rw [levRec_cons]
    have hc : (if a = b then 0 else 1) ≤ 1 := by split <;> omega
    omega
  | ins b h ih =>
    rename_i xs' ys' n'
    cases xs' with
    | nil =>
      rw [levRec_nil_left] at ih ⊢
      simp only [List.length_cons]
      omega
    | cons x xs'' =>
      rw [levRec_cons]
      omega
  | del a h ih =>
    rename_i xs' ys' n'
    cases ys' with
    | nil =>
      rw [levRec_nil_right] at ih ⊢
      simp only [List.length_cons]
      omega
    | cons y ys'' =>
      rw [levRec_cons]
      omega

theorem edits_levRec (xs ys : List Char) : Edits xs ys (levRec xs ys) := by
  induction xs, ys using levRec.induct with
  | case1 ys => rw [levRec_nil_left]; exact edits_nil_left ys
  | case2 xs => rw [levRec_nil_right]; exact edits_nil_right xs
  | case3 x xs y ys ih1 ih2 ih3 =>
    rw [levRec_cons]
    set A := levRec xs (y :: ys) + 1 with hA
    set B := levRec (x :: xs) ys + 1 with hB
    set C := levRec xs ys + (if x = y then 0 else 1) with hC
    have hmin : min A (min B C) = A ∨ min A (min B C) = B ∨
        min A (min B C) = C := by omega
    rcases hmin with h | h | h <;> rw [h]
    · exact Edits.del x ih1
    · exact Edits.ins y ih2
    · by_cases hxy : x = y
      · subst hxy; simpa [hC] using Edits.copy x ih3
      · simpa [hC, hxy] using Edits.subst x y ih3

theorem edits_symm {xs ys : List Char} {n : ℕ} (h : Edits xs ys n) :
    Edits ys xs n := by
  induction h with
  | nil => exact Edits.nil
  | copy a h ih => exact Edits.copy a ih
  | subst a b h ih => exact Edits.subst b a ih
  | ins b h ih => exact Edits.del b ih
  | del a h ih => exact Edits.ins a ih

theorem edits_snoc_copy (a : Char) {xs ys : List Char} {n : ℕ}
    (h : Edits xs ys n) : Edits (xs ++ [a]) (ys ++ [a]) n := by
  induction h with
  | nil => exact Edits.copy a Edits.nil
  | copy c h ih => exact Edits.copy c ih
  | subst c d h ih => exact Edits.subst c d ih
  | ins d h ih => exact Edits.ins d ih
  | del c h ih => exact Edits.del c ih

theorem edits_snoc_subst (a b : Char) {xs ys : List Char} {n : ℕ}
    (h : Edits xs ys n) : Edits (xs ++ [a]) (ys ++ [b]) (n + 1) := by
  induction h with
  | nil => exact Edits.subst a b Edits.nil
  | copy c h ih => exact Edits.copy c ih
  | subst c d h ih => exact Edits.subst c d ih
  | ins d h ih => exact Edits.ins d ih
  | del c h ih => exact Edits.del c ih

theorem edits_snoc_ins (b : Char) {xs ys : List Char} {n : ℕ}
    (h : Edits xs ys n) : Edits xs (ys ++ [b]) (n + 1) := by
  induction h with
  | nil => exact Edits.ins b Edits.nil
  | copy c h ih => exact Edits.copy c ih
  | subst c d h ih => exact Edits.subst c d ih
  | ins d h ih => exact Edits.ins d ih
  | del c h ih => exact Edits.del c ih

theorem edits_snoc_del (a : Char) {xs ys : List Char} {n : ℕ}
    (h : Edits xs ys n) : Edits (xs ++ [a]) ys (n + 1) := by
  induction h with
  | nil => exact Edits.del a Edits.nil
  | copy c h ih => exact Edits.copy c ih
  | subst c d h ih => exact Edits.subst c d ih
  | ins d h ih => exact Edits.ins d ih
  | del c h ih => exact Edits.del c ih

theorem edits_reverse {xs ys : List Char} {n : ℕ} (h : Edits xs ys n) :
    Edits xs.reverse ys.reverse n := by
  induction h with
  | nil => exact Edits.nil
  | copy a h ih => simpa [List.reverse_cons] using edits_snoc_copy a ih
  | subst a b h ih => simpa [List.reverse_cons] using edits_snoc_subst a b ih
  | ins b h ih => simpa [List.reverse_cons] using edits_snoc_ins b ih
  | del a h ih => simpa [List.reverse_cons] using edits_snoc_del a ih

theorem levRec_reverse (xs ys : List Char) :
    levRec xs.reverse ys.reverse = levRec xs ys := by
  refine le_antisymm (levRec_le_of_edits (edits_reverse (edits_levRec xs ys))) ?_
  have h := levRec_le_of_edits (edits_reverse (edits_levRec xs.reverse ys.reverse))
  simpa using h

theorem levMatrix_zero_left (s1 s2 : List Char) (j : ℕ) :
    levMatrix s1 s2 0 j = j := by
  simp [levMatrix]

theorem levMatrix_succ_zero (s1 s2 : List Char) (i : ℕ) :
    levMatrix s1 s2 (i + 1) 0 = i + 1 := by
  simp [levMatrix]

theorem levMatrix_succ_succ (s1 s2 : List Char) (i j : ℕ) :
    levMatrix s1 s2 (i + 1) (j + 1) =
      min (levMatrix s1 s2 i (j + 1) + 1)
        (min (levMatrix s1 s2 (i + 1) j + 1)
          (levMatrix s1 s2 i j + if s1.get? i = s2.get? j then 0 else 1)) := by
  simp [levMatrix]

/-- Each DP-table entry is the recursive Levenshtein distance of the
(reversed) prefixes it indexes. -/
theorem levMatrix_eq_levRec (s1 s2 : List Char) :
    ∀ i j, i ≤ s1.length → j ≤ s2.length →
      levMatrix s1 s2 i j =
        levRec ((s1.take i).reverse) ((s2.take j).reverse) := by
  intro i j
  induction i, j using levMatrix.induct s1 s2 with
  | case1 j =>
    intro _ hj
    rw [levMatrix_zero_left, List.take_zero, List.reverse_nil,
      levRec_nil_left, List.length_reverse, List.length_take]
    omega
  | case2 i =>
    intro hi _
    rw [levMatrix_succ_zero, List.take_zero, List.reverse_nil,
      levRec_nil_right, List.length_reverse, List.length_take]
    omega
  | case3 i j ih1 ih2 ih3 =>
    intro hi hj
    have hi' : i < s1.length := by omega
    have hj' : j < s2.length := by omega
    rw [levMatrix_succ_succ,
      ih1 (by omega) hj, ih2 hi (by omega), ih3 (by omega) (by omega)]
    rw [List.take_succ, List.take_succ,
      List.get?_eq_getElem?, List.get?_eq_getElem?,
      List.getElem?_eq_getElem hi', List.getElem?_eq_getElem hj']
    simp only [Option.toList_some, List.reverse_append, List.reverse_cons,
      List.reverse_nil, List.nil_append, List.singleton_append]
    rw [levRec_cons]
    simp [Option.some.injEq]

/-- The function `levenshteinDistance` computes the recursive Levenshtein distance. -/
theorem levenshteinDistance_eq_levRec (s1 s2 : List Char) :
    levenshteinDistance s1 s2 = levRec s1 s2 := by
  rw [levenshteinDistance,
    levMatrix_eq_levRec s1 s2 s1.length s2.length le_rfl le_rfl,
    List.take_length, List.take_length, levRec_reverse]

/-- Aligning the two strings position by position (substituting along the
shorter length, then inserting or deleting the excess) costs at most the
longer length. -/
theorem edits_le_max (xs : List Char) : ∀ ys : List Char,
    Edits xs ys (max xs.length ys.length) := by
  induction xs with
  | nil => intro ys; simpa using edits_nil_left ys
  | cons a xs ih =>
    intro ys
    cases ys with
    | nil => simpa using edits_nil_right (a :: xs)
    | cons b ys =>
      have h := Edits.subst a b (ih ys)
      have hm : max (a :: xs).length (b :: ys).length =
          max xs.length ys.length + 1 := by
        simp only [List.length_cons]; omega
      rw [hm]
      exact h

/-- The computed distance never exceeds the longer input's length. -/
theorem levenshteinDistance_le_max (A B : List Char) :
    levenshteinDistance A B ≤ max A.length B.length := by
  rw [levenshteinDistance_eq_levRec]
  exact levRec_le_of_edits (edits_le_max A B)

/-- C4: for all strings `A` and `B`, `levenshteinDistance(A, B)` is the
minimum number of single-character insertions, deletions, and
substitutions required to transform `A` into `B` — i.e. it is the least
element of the set of costs of edit scripts between the two strings. -/
theorem levenshteinDistance_isLeast (A B : List Char) :
    IsLeast {n : ℕ | Edits A B n} (levenshteinDistance A B) := by
  rw [levenshteinDistance_eq_levRec]
  exact ⟨edits_levRec A B, fun n hn => levRec_le_of_edits hn⟩

/-- C8: `levenshteinDistance(A, A) = 0`, `levenshteinDistance` is
symmetric, and `levenshteinDistance("", B) = len(B)`. -/
theorem levenshteinDistance_algebraic (A B : List Char) :
    levenshteinDistance A A = 0 ∧
    levenshteinDistance A B = levenshteinDistance B A ∧
    levenshteinDistance [] B = B.length := by
  refine ⟨?_, ?_, ?_⟩
  · rw [levenshteinDistance_eq_levRec]
    exact Nat.le_zero.mp (levRec_le_of_edits (edits_refl A))
  · rw [levenshteinDistance_eq_levRec, levenshteinDistance_eq_levRec]
    exact le_antisymm (levRec_le_of_edits (edits_symm (edits_levRec B A)))
      (levRec_le_of_edits (edits_symm (edits_levRec A B)))
  · rw [levenshteinDistance_eq_levRec, levRec_nil_left]

theorem jsRound_nonneg {q : ℚ} (h : 0 ≤ q) : 0 ≤ jsRound q := by
  rw [jsRound]
  exact Int.le_floor.mpr (by push_cast; linarith)

theorem jsRound_le_hundred {q : ℚ} (h : q ≤ 100) : jsRound q ≤ 100 := by
  rw [jsRound]
  have h2 : ⌊q + 1 / 2⌋ ≤ ⌊(201 : ℚ) / 2⌋ := Int.floor_le_floor (by linarith)
  have h3 : ⌊(201 : ℚ) / 2⌋ = (100 : ℤ) := by norm_num
  omega

/-- C3 counterexample: on the pair of empty strings the source computes
`Math.round(0/0 * 100) = NaN` (modelled `none`) — there is no special
case for the zero maximum length, and the result is not `0`. -/
theorem editPercentage_empty_cex :
    calculateEditPercentage [] [] = none ∧
      calculateEditPercentage [] [] ≠ some 0 := by
  refine ⟨rfl, ?_⟩
  simp [calculateEditPercentage]

/-- C3 (amended): for strings `A`, `B` with at least one non-empty,
`calculateEditPercentage(A, B)` equals the reference
`round(levenshteinDistance(A, B) / max(len(A), len(B)) * 100)` and lies
in `[0, 100]`; when both are empty the result is the JS `NaN` (`none`),
not `0` — the zero-max-length divide is not special-cased. -/
theorem editPercentage_spec :
    (∀ A B : List Char, A ≠ [] ∨ B ≠ [] →
      calculateEditPercentage A B =
        some (jsRound ((levenshteinDistance A B : ℚ) /
          ((max A.length B.length : ℕ) : ℚ) * 100)) ∧
      ∀ v : ℤ, calculateEditPercentage A B = some v → 0 ≤ v ∧ v ≤ 100) ∧
    calculateEditPercentage [] [] = none := by
  constructor
  · intro A B h
    have hm : 0 < max A.length B.length := by
      rcases h with h | h
      · exact lt_of_lt_of_le (List.length_pos.mpr h) (le_max_left _ _)
      · exact lt_of_lt_of_le (List.length_pos.mpr h) (le_max_right _ _)
    have heq : calculateEditPercentage A B =
        some (jsRound ((levenshteinDistance A B : ℚ) /
          ((max A.length B.length : ℕ) : ℚ) * 100)) := by
      simp only [calculateEditPercentage]
      rw [if_neg hm.ne']
    refine ⟨heq, ?_⟩
    intro v hv
    rw [heq] at hv
    have hv' : v = jsRound ((levenshteinDistance A B : ℚ) /
        ((max A.length B.length : ℕ) : ℚ) * 100) := (Option.some_inj.mp hv).symm
    have hmQ : (0 : ℚ) < ((max A.length B.length : ℕ) : ℚ) := by
      exact_mod_cast hm
    have hdQ : (levenshteinDistance A B : ℚ) ≤
        ((max A.length B.length : ℕ) : ℚ) := by
      exact_mod_cast levenshteinDistance_le_max A B
    have hq0 : (0 : ℚ) ≤ (levenshteinDistance A B : ℚ) /
        ((max A.length B.length : ℕ) : ℚ) * 100 := by positivity
    have hq100 : (levenshteinDistance A B : ℚ) /
        ((max A.length B.length : ℕ) : ℚ) * 100 ≤ 100 := by
      have h1 : (levenshteinDistance A B : ℚ) /
          ((max A.length B.length : ℕ) : ℚ) ≤ 1 := (div_le_one hmQ).mpr hdQ
      nlinarith
    exact hv' ▸ ⟨jsRound_nonneg hq0, jsRound_le_hundred hq100⟩
  · rfl

/-- Witness for C3 (amended) at `A = "ab"`, `B = "b"`: the hypothesis is
discharged and both conjuncts evaluate. -/
theorem editPercentage_spec_witness :
    calculateEditPercentage ['a', 'b'] ['b'] =
      some (jsRound ((levenshteinDistance ['a', 'b'] ['b'] : ℚ) /
        ((max (['a', 'b'] : List Char).length (['b'] : List Char).length : ℕ) : ℚ) *
          100)) ∧
    ∀ v : ℤ, calculateEditPercentage ['a', 'b'] ['b'] = some v →
      0 ≤ v ∧ v ≤ 100 :=
  editPercentage_spec.1 ['a', 'b'] ['b'] (Or.inl (by decide))

theorem jsSplitWsCount_pos (s : List Char) : 1 ≤ jsSplitWsCount s := by
  rw [jsSplitWsCount]; omega

/-- C5: with no API credential configured (`getOpenAIKey` resolves `''`)
the classifier performs zero network calls and returns the heuristic
fallback verdict (tone and CTA marked unavailable, length from the
word-count ratio); on any failed network call (non-success status,
fetch rejection, or unparsable body) it returns the analogous fallback
verdict — totally, no exception escapes; and `categorizeLengthChange` is
exactly the >20% increase / >20% decrease word-count-ratio rule. -/
theorem analyzeEdits_fallback :
    (∀ (net : NetOutcome) (o f : List Char) (ep : Option ℤ) (sd : ℤ),
      analyzeEdits "" net o f ep sd =
        ({ toneChange := "Unable to analyze (no API key)"
           ctaChange := "Unable to analyze (no API key)"
           lengthChange := categorizeLengthChange o f
           summary := "No API key configured" }, 0)) ∧
    (∀ key : String, key ≠ "" →
      ∀ (o f : List Char) (ep : Option ℤ) (sd : ℤ) (net : NetOutcome),
        (∀ r, net ≠ NetOutcome.success r) →
        analyzeEdits key net o f ep sd =
          ({ toneChange := "Unable to analyze (API error)"
             ctaChange := "Unable to analyze (API error)"
             lengthChange := categorizeLengthChange o f
             summary := "Analysis failed" }, 1)) ∧
    (∀ o f : List Char,
      categorizeLengthChange o f =
        if 20 * (jsSplitWsCount o : ℤ) <
            ((jsSplitWsCount f : ℤ) - (jsSplitWsCount o : ℤ)) * 100 then
          "Expanded"
        else if ((jsSplitWsCount f : ℤ) - (jsSplitWsCount o : ℤ)) * 100 <
            -20 * (jsSplitWsCount o : ℤ) then
          "Shortened"
        else "No significant change") := by
  refine ⟨?_, ?_, ?_⟩
  · intro net o f ep sd
    simp [analyzeEdits]
  · intro key hk o f ep sd net hnet
    cases net with
    | success r => exact absurd rfl (hnet r)
    | httpError s => simp [analyzeEdits, if_neg hk]
    | networkFailure => simp [analyzeEdits, if_neg hk]
    | parseFailure => simp [analyzeEdits, if_neg hk]
  · intro o f
    have hO : (0 : ℚ) < (jsSplitWsCount o : ℚ) := by
      exact_mod_cast Nat.lt_of_lt_of_le Nat.zero_lt_one (jsSplitWsCount_pos o)
    have h1 : (((jsSplitWsCount f : ℚ) - (jsSplitWsCount o : ℚ)) /
          (jsSplitWsCount o : ℚ) * 100 > 20) ↔
        20 * (jsSplitWsCount o : ℤ) <
          ((jsSplitWsCount f : ℤ) - (jsSplitWsCount o : ℤ)) * 100 := by
      rw [gt_iff_lt, div_mul_eq_mul_div, lt_div_iff₀ hO]
      constructor <;> intro h <;> exact_mod_cast h
    have h2 : (((jsSplitWsCount f : ℚ) - (jsSplitWsCount o : ℚ)) /
          (jsSplitWsCount o : ℚ) * 100 < -20) ↔
        ((jsSplitWsCount f : ℤ) - (jsSplitWsCount o : ℤ)) * 100 <
          -20 * (jsSplitWsCount o : ℤ) := by
      rw [div_mul_eq_mul_div, div_lt_iff₀ hO]
      constructor <;> intro h <;> exact_mod_cast h
    simp only [categorizeLengthChange]
    rw [if_congr h1 rfl (if_congr h2 rfl rfl)]

/-- Witness for C5: concrete no-key and network-failure invocations on
"hi there" → "hi there again and again", plus the heuristic equation at
those texts. -/
theorem analyzeEdits_fallback_witness :
    analyzeEdits "" NetOutcome.networkFailure
        ("hi there".toList) ("hi there again and again".toList) (some 50) 1000 =
      ({ toneChange := "Unable to analyze (no API key)"
         ctaChange := "Unable to analyze (no API key)"
         lengthChange :=
           categorizeLengthChange ("hi there".toList)
             ("hi there again and again".toList)
         summary := "No API key configured" }, 0) ∧
    analyzeEdits "sk-test" NetOutcome.parseFailure
        ("hi there".toList) ("hi there again and again".toList) (some 50) 1000 =
      ({ toneChange := "Unable to analyze (API error)"
         ctaChange := "Unable to analyze (API error)"
         lengthChange :=
           categorizeLengthChange ("hi there".toList)
             ("hi there again and again".toList)
         summary := "Analysis failed" }, 1) :=
  ⟨analyzeEdits_fallback.1 NetOutcome.networkFailure
      ("hi there".toList) ("hi there again and again".toList) (some 50) 1000,
    analyzeEdits_fallback.2.1 "sk-test" (by decide)
      ("hi there".toList) ("hi there again and again".toList) (some 50) 1000
      NetOutcome.parseFailure (fun r h => by cases h)⟩

theorem findIdx?_shift {α : Type} (p : α → Bool) (l : List α) :
    ∀ i : ℕ, l.findIdx? p i = (l.findIdx? p 0).map (· + i) := by
  induction l with
  | nil => intro i; rfl
  | cons x xs ih =>
    intro i
    rw [List.findIdx?_cons, List.findIdx?_cons]
    by_cases h : p x
    · simp [h]
    · rw [if_neg h, if_neg h, ih (i + 1), ih (0 + 1), Option.map_map]
      congr 1
      funext k
      simp only [Function.comp_apply]
      omega

theorem findIdx?_cons_zero {α : Type} (p : α → Bool) (x : α) (xs : List α) :
    (x :: xs).findIdx? p = if p x then some 0 else (xs.findIdx? p).map (· + 1) := by
  rw [List.findIdx?_cons]
  by_cases h : p x
  · simp [h]
  · rw [if_neg h, if_neg h, findIdx?_shift]

theorem updateDraft_nil (dId : String) (a : AnalysisData) :
    updateDraftWithAnalysis dId a [] = [] := rfl

/-- First-match characterization of `updateDraftWithAnalysis` (JS
`findIndex` returns the first index whose id matches). -/
theorem updateDraft_cons (dId : String) (a : AnalysisData) (r : DraftRecord)
    (rest : List DraftRecord) :
    updateDraftWithAnalysis dId a (r :: rest) =
      if r.id = dId then mergeAnalysis r a :: rest
      else r :: updateDraftWithAnalysis dId a rest := by
  by_cases h : r.id = dId
  · simp only [updateDraftWithAnalysis, findIdx?_cons_zero, h, if_pos]
    simp
  · have hb : (r.id == dId) = false := by
      simpa using h
    simp only [updateDraftWithAnalysis, findIdx?_cons_zero, hb,
      Bool.false_eq_true, if_neg, if_false]
    cases hfind : rest.findIdx? (fun d => d.id == dId) with
    | none => simp [h]
    | some i =>
      simp only [Option.map_some, if_neg h]
      rfl

theorem length_updateDraft (dId : String) (a : AnalysisData)
    (drafts : List DraftRecord) :
    (updateDraftWithAnalysis dId a drafts).length = drafts.length := by
  rw [updateDraftWithAnalysis]
  cases drafts.findIdx? (fun d => d.id == dId) with
  | none => rfl
  | some i => simp

/-- C10: `updateDraftWithAnalysis` leaves the stored list unchanged when
no record carries the target id; it always preserves length (and hence
order); and when the first matching record sits at index `i`, the result
is exactly the original list with slot `i` rewritten to the merged
record, every other position unchanged. -/
theorem updateDraftWithAnalysis_frame (dId : String) (a : AnalysisData)
    (drafts : List DraftRecord) :
    ((∀ r ∈ drafts, r.id ≠ dId) → updateDraftWithAnalysis dId a drafts = drafts) ∧
    (updateDraftWithAnalysis dId a drafts).length = drafts.length ∧
    ∀ i : ℕ, i < drafts.length → (drafts.getD i default).id = dId →
      (∀ j : ℕ, j < i → (drafts.getD j default).id ≠ dId) →
      updateDraftWithAnalysis dId a drafts =
        drafts.set i (mergeAnalysis (drafts.getD i default) a) ∧
      (∀ j : ℕ, j ≠ i →
        (updateDraftWithAnalysis dId a drafts).get? j = drafts.get? j) ∧
      (updateDraftWithAnalysis dId a drafts).get? i =
        some (mergeAnalysis (drafts.getD i default) a) := by
  refine ⟨?_, length_updateDraft dId a drafts, ?_⟩
  · intro hnone
    induction drafts with
    | nil => rfl
    | cons r rest ih =>
      rw [updateDraft_cons, if_neg (hnone r (List.mem_cons_self r rest))]
      rw [ih (fun x hx => hnone x (List.mem_cons_of_mem r hx))]
  · induction drafts with
    | nil => intro i hi; simp at hi
    | cons r rest ih =>
      intro i hi hmatch hfirst
      cases i with
      | zero =>
        simp only [List.getD_cons_zero] at hmatch
        rw [updateDraft_cons, if_pos hmatch]
        refine ⟨by simp, ?_, by simp⟩
        intro j hj
        cases j with
        | zero => omega
        | succ k => simp
      | succ k =>
        have hr : r.id ≠ dId := by
          have := hfirst 0 (Nat.succ_pos k)
          simpa using this
        simp only [List.getD_cons_succ] at hmatch
        have hk : k < rest.length := by
          simp only [List.length_cons] at hi; omega
        have hfirst' : ∀ j : ℕ, j < k → (rest.getD j default).id ≠ dId := by
          intro j hj
          have := hfirst (j + 1) (by omega)
          simpa using this
        obtain ⟨h1, h2, h3⟩ := ih k hk hmatch hfirst'
        rw [updateDraft_cons, if_neg hr]
        refine ⟨?_, ?_, ?_⟩
        · rw [h1]; rfl
        · intro j hj
          cases j with
          | zero => simp
          | succ m =>
            simp only [List.get?_cons_succ]
            exact h2 m (by omega)
        · simpa using h3

/-- Witness for C10: a two-record store where only the second record
matches; the first is untouched and the match slot is rewritten. -/
theorem updateDraftWithAnalysis_frame_witness :
    (updateDraftWithAnalysis "d2"
        { finalText := ['x'], finalWordCount := 1, sentAt := "t",
          sendDelay := 5, editPercentage := 50, toneChange := "tc",
          ctaChange := "cc", lengthChange := "lc", summary := "s",
          status := some "editing" }
        [{ id := "d1", originalText := ['a'], originalWordCount := 1,
           generatedAt := "g1", timestamp := 0, status := "pending" },
         { id := "d2", originalText := ['b'], originalWordCount := 1,
           generatedAt := "g2", timestamp := 1, status := "pending" }]).length = 2 ∧
    updateDraftWithAnalysis "d2"
        { finalText := ['x'], finalWordCount := 1, sentAt := "t",
          sendDelay := 5, editPercentage := 50, toneChange := "tc",
          ctaChange := "cc", lengthChange := "lc", summary := "s",
          status := some "editing" }
        [{ id := "d1", originalText := ['a'], originalWordCount := 1,
           generatedAt := "g1", timestamp := 0, status := "pending" },
         { id := "d2", originalText := ['b'], originalWordCount := 1,
           generatedAt := "g2", timestamp := 1, status := "pending" }] =
      List.set
        [{ id := "d1", originalText := ['a'], originalWordCount := 1,
           generatedAt := "g1", timestamp := 0, status := "pending" },
         { id := "d2", originalText := ['b'], originalWordCount := 1,
           generatedAt := "g2", timestamp := 1, status := "pending" }] 1
        (mergeAnalysis
          (List.getD
            [{ id := "d1", originalText := ['a'], originalWordCount := 1,
               generatedAt := "g1", timestamp := 0, status := "pending" },
             { id := "d2", originalText := ['b'], originalWordCount := 1,
               generatedAt := "g2", timestamp := 1, status := "pending" }] 1 default)
          { finalText := ['x'], finalWordCount := 1, sentAt := "t",
            sendDelay := 5, editPercentage := 50, toneChange := "tc",
            ctaChange := "cc", lengthChange := "lc", summary := "s",
            status := some "editing" }) := by
  refine ⟨(updateDraftWithAnalysis_frame _ _ _).2.1, ?_⟩
  exact ((updateDraftWithAnalysis_frame _ _ _).2.2 1 (by decide) (by decide)
    (by intro j hj; interval_cases j; decide)).1

/-- C6: when the debounce timer fires and the computed edit percentage
between the baseline and the current text is below the configured
minimum (10), the classifier is not invoked, zero network calls are
made, and the stored draft list is returned untouched. -/
theorem subthreshold_noop (d : Draft) (text : List Char) (now : ℤ)
    (iso apiKey : String) (net : NetOutcome) (drafts : List DraftRecord)
    (p : ℤ) (hp : calculateEditPercentage d.originalText text = some p)
    (hlt : p < 10) :
    analyzeCurrentEditsStep (some d) text now iso apiKey net drafts =
      (false, 0, drafts) := by
  simp only [analyzeCurrentEditsStep, hp]
  rw [if_neg (by omega)]

/-- Witness for C6: baseline `"abc"` re-observed unchanged (edit
percentage 0 < 10) — no classifier call, store untouched. -/
theorem subthreshold_noop_witness :
    analyzeCurrentEditsStep
        (some { id := "d1", originalText := ['a', 'b', 'c'],
                originalWordCount := 1, generatedAt := "g", timestamp := 0 })
        ['a', 'b', 'c'] 5000 "iso" "sk-test" NetOutcome.networkFailure [] =
      (false, 0, []) := by
  have hp : calculateEditPercentage ['a', 'b', 'c'] ['a', 'b', 'c'] =
      some 0 := by
    have h0 : levenshteinDistance ['a', 'b', 'c'] ['a', 'b', 'c'] = 0 := by
      simp [levenshteinDistance, levMatrix]
    simp [calculateEditPercentage, h0, jsRound]
    norm_num
  exact subthreshold_noop _ _ 5000 "iso" "sk-test" NetOutcome.networkFailure
    [] 0 hp (by norm_num)

set_option maxRecDepth 4000 in
/-- C1 counterexample: a change event observed exactly 2000 ms after the
previous change, carrying 40 words and 250 added characters, satisfies
every threshold as the claim states them (word count ≥ 30, added
characters ≥ the minimum, elapsed time AT MOST the 2000 ms bulk-insert
window) — yet detection does not fire, because the source compares the
elapsed time with strict `<` (`timeDelta < BULK_INSERT_THRESHOLD`). -/
theorem detection_boundary_cex :
    wordCount sampleDraft = 40 ∧
    (sampleDraft.length : ℤ) - ((initialSurface 0).lastText.length : ℤ) = 250 ∧
    (2000 : ℤ) - (initialSurface 0).lastChangeTime ≤ 2000 ∧
    (observerStep "id" "iso" (initialSurface 0) none [] 2000
        sampleDraft).fired = false := by
  refine ⟨by decide, by decide, by decide, by decide⟩

set_option maxRecDepth 4000 in
/-- C1 (amended): on a compose surface where no draft has been detected,
a content-change event fires detection (invoking the draft-capture
handler) iff the word count is at least 30, the characters added exceed
100 STRICTLY, and the elapsed time since the previous change is
STRICTLY below the 2000 ms bulk-insert window.  The spec's concrete
scenario (40 words / 250 added characters, 500 ms after attachment)
fires; the same content arriving 3000 ms after the previous change does
not. -/
theorem detection_fires_iff :
    (∀ (gid iso : String) (s : SurfaceState) (cd : Option Draft)
        (drafts : List DraftRecord) (t : ℤ) (text : List Char),
      s.fridayDraftDetected = false → text ≠ s.lastText →
      ((observerStep gid iso s cd drafts t text).fired = true ↔
        30 ≤ wordCount text ∧
        100 < (text.length : ℤ) - (s.lastText.length : ℤ) ∧
        t - s.lastChangeTime < 2000)) ∧
    (observerStep "id" "iso" (initialSurface 0) none [] 500
        sampleDraft).fired = true ∧
    (observerStep "id" "iso" (initialSurface 0) none [] 3000
        sampleDraft).fired = false := by
  refine ⟨?_, by decide, by decide⟩
  intro gid iso s cd drafts t text hdet hne
  simp only [observerStep, if_neg hne, hdet, Bool.not_false, Bool.true_and,
    Bool.and_eq_true, decide_eq_true_eq]
  omega

set_option maxRecDepth 4000 in
/-- Witness for C1 (amended): the iff instantiated at the 40-word /
250-character event 500 ms after attachment. -/
theorem detection_fires_iff_witness :
    (observerStep "id" "iso" (initialSurface 0) none [] 500
        sampleDraft).fired = true ↔
      30 ≤ wordCount sampleDraft ∧
      100 < (sampleDraft.length : ℤ) -
        ((initialSurface 0).lastText.length : ℤ) ∧
      (500 : ℤ) - (initialSurface 0).lastChangeTime < 2000 :=
  detection_fires_iff.1 "id" "iso" (initialSurface 0) none [] 500
    sampleDraft rfl (by decide)

theorem observerStep_same_text (gid iso : String) (s : SurfaceState)
    (cd : Option Draft) (drafts : List DraftRecord) (t : ℤ)
    (text : List Char) (h : text = s.lastText) :
    observerStep gid iso s cd drafts t text =
      { surface := s, currentDraft := cd, drafts := drafts,
        fired := false } := by
  rw [observerStep, if_pos h]

/-- On an already-detected surface with a live `currentDraft`, any
changed text replaces the pending timer with one 3000 ms out capturing
the new text, fires no detection, and touches neither the draft nor the
store. -/
theorem observerStep_tracked (gid iso : String) (s : SurfaceState)
    (cd : Option Draft) (drafts : List DraftRecord) (t : ℤ)
    (text : List Char) (hdet : s.fridayDraftDetected = true)
    (hcd : cd.isSome = true) (hne : text ≠ s.lastText) :
    observerStep gid iso s cd drafts t text =
      { surface :=
          { lastText := text, lastChangeTime := t,
            fridayDraftDetected := true,
            analysisTimer := some (t + 3000, text) }
        currentDraft := cd, drafts := drafts, fired := false } := by
  simp only [observerStep, if_neg hne, hdet]
  simp [hcd]

/-- Detection behaviour of one observer callback: the post-state flag is
the old flag or the fired bit; firing requires an undetected surface;
and the stored list grows by exactly the fired bit. -/
theorem observerStep_detection (gid iso : String) (s : SurfaceState)
    (cd : Option Draft) (drafts : List DraftRecord) (t : ℤ)
    (text : List Char) :
    (observerStep gid iso s cd drafts t text).surface.fridayDraftDetected =
      (s.fridayDraftDetected ||
        (observerStep gid iso s cd drafts t text).fired) ∧
    ((observerStep gid iso s cd drafts t text).fired = true →
      s.fridayDraftDetected = false) ∧
    (observerStep gid iso s cd drafts t text).drafts.length =
      drafts.length +
        (if (observerStep gid iso s cd drafts t text).fired then 1 else 0) := by
  by_cases h : text = s.lastText
  · rw [observerStep_same_text gid iso s cd drafts t text h]
    simp
  · simp only [observerStep, if_neg h]
    refine ⟨by simp, ?_, ?_⟩
    · intro hf
      by_contra hdet
      have hdet' : s.fridayDraftDetected = true := by
        cases hx : s.fridayDraftDetected
        · exact absurd hx hdet
        · rfl
      rw [hdet'] at hf
      simp at hf
    · by_cases hf : (!s.fridayDraftDetected &&
          decide (30 ≤ wordCount text) &&
          decide (100 < (text.length : ℤ) - (s.lastText.length : ℤ)) &&
          decide (t - s.lastChangeTime < 2000)) = true
      · simp [hf, storeDraft]
      · simp only [Bool.not_eq_true] at hf
        simp [hf]

theorem fireTimerIfDue_skip (o : Oracles) (deadline : ℤ) (st : TraceState)
    (h : ∀ ft cap, st.surface.analysisTimer = some (ft, cap) →
      deadline < ft) :
    fireTimerIfDue o deadline st = st := by
  cases htm : st.surface.analysisTimer with
  | none => simp [fireTimerIfDue, htm]
  | some p =>
    obtain ⟨ft, cap⟩ := p
    simp only [fireTimerIfDue, htm]
    rw [if_neg (not_le_of_lt (h ft cap htm))]

theorem fireTimerIfDue_none (o : Oracles) (deadline : ℤ) (st : TraceState)
    (h : st.surface.analysisTimer = none) :
    fireTimerIfDue o deadline st = st := by
  simp [fireTimerIfDue, h]

/-- The timer callback never changes the length of the stored list
(`updateDraftWithAnalysis` rewrites in place or does nothing). -/
theorem analyzeStep_length (cd : Option Draft) (cap : List Char) (now : ℤ)
    (iso apiKey : String) (net : NetOutcome) (drafts : List DraftRecord) :
    (analyzeCurrentEditsStep cd cap now iso apiKey net drafts).2.2.length =
      drafts.length := by
  cases cd with
  | none => rfl
  | some d =>
    simp only [analyzeCurrentEditsStep]
    cases calculateEditPercentage d.originalText cap with
    | none => rfl
    | some p =>
      by_cases hp : p ≥ 10
      · simp only [if_pos hp]
        exact length_updateDraft _ _ _
      · simp only [if_neg hp]

/-- Frame: `fireTimerIfDue` never touches the detection flag, the detection
count, the current draft, or the length of the stored list. -/
theorem fireTimerIfDue_frame (o : Oracles) (deadline : ℤ) (st : TraceState) :
    (fireTimerIfDue o deadline st).surface.fridayDraftDetected =
      st.surface.fridayDraftDetected ∧
    (fireTimerIfDue o deadline st).detections = st.detections ∧
    (fireTimerIfDue o deadline st).currentDraft = st.currentDraft ∧
    (fireTimerIfDue o deadline st).drafts.length = st.drafts.length := by
  cases htm : st.surface.analysisTimer with
  | none => simp [fireTimerIfDue, htm]
  | some p =>
    obtain ⟨ft, cap⟩ := p
    simp only [fireTimerIfDue, htm]
    by_cases hle : ft ≤ deadline
    · rw [if_pos hle]
      exact ⟨rfl, rfl, rfl, analyzeStep_length _ _ _ _ _ _ _⟩
    · rw [if_neg hle]
      exact ⟨rfl, rfl, rfl, rfl⟩

theorem flushTimer_fire (o : Oracles) (st : TraceState) (ft : ℤ)
    (cap : List Char) (h : st.surface.analysisTimer = some (ft, cap)) :
    flushTimer o st =
      { st with
        surface := { st.surface with analysisTimer := none }
        drafts := (analyzeCurrentEditsStep st.currentDraft cap ft (o.iso ft)
          o.apiKey (o.net ft) st.drafts).2.2
        analyses := st.analyses ++ [(ft, cap)] } := by
  simp only [flushTimer, h, fireTimerIfDue, if_pos le_rfl]

theorem flushTimer_none (o : Oracles) (st : TraceState)
    (h : st.surface.analysisTimer = none) : flushTimer o st = st := by
  simp [flushTimer, h]

/-- Invariance of a predicate along the event fold. -/
theorem foldl_traceStep_invariant (o : Oracles) (P : TraceState → Prop)
    (hstep : ∀ st ev, P st → P (traceStep o st ev)) :
    ∀ (events : List (ℤ × List Char)) (st : TraceState),
      P st → P (events.foldl (traceStep o) st) := by
  intro events
  induction events with
  | nil => intro st h; exact h
  | cons ev rest ih =>
    intro st h
    exact ih (traceStep o st ev) (hstep st ev h)

/-- One event conserves `detections + (1 if still undetected)` and grows
the stored list by exactly the detections it adds. -/
theorem traceStep_conserve (o : Oracles) (st : TraceState)
    (ev : ℤ × List Char) :
    (traceStep o st ev).detections +
        (if (traceStep o st ev).surface.fridayDraftDetected = true then 0
          else 1) =
      st.detections +
        (if st.surface.fridayDraftDetected = true then 0 else 1) ∧
    (traceStep o st ev).drafts.length + st.detections =
      st.drafts.length + (traceStep o st ev).detections := by
  obtain ⟨hdet1, hdc1, hcd1, hlen1⟩ := fireTimerIfDue_frame o ev.1 st
  obtain ⟨hflag, hfire, hlen2⟩ := observerStep_detection (o.gid ev.1)
    (o.iso ev.1) (fireTimerIfDue o ev.1 st).surface
    (fireTimerIfDue o ev.1 st).currentDraft
    (fireTimerIfDue o ev.1 st).drafts ev.1 ev.2
  simp only [traceStep]
  cases hf : (observerStep (o.gid ev.1) (o.iso ev.1)
      (fireTimerIfDue o ev.1 st).surface
      (fireTimerIfDue o ev.1 st).currentDraft
      (fireTimerIfDue o ev.1 st).drafts ev.1 ev.2).fired with
  | true =>
    have h0 : st.surface.fridayDraftDetected = false := by
      rw [← hdet1]; exact hfire hf
    rw [hf] at hflag hlen2
    have h1 : (fireTimerIfDue o ev.1 st).surface.fridayDraftDetected =
        false := by rw [hdet1]; exact h0
    rw [h1] at hflag
    simp only [hflag, hf, h0, hdc1, hlen2, hlen1]
    refine ⟨by simp, by omega⟩
  | false =>
    rw [hf] at hflag hlen2
    have h1 : (observerStep (o.gid ev.1) (o.iso ev.1)
        (fireTimerIfDue o ev.1 st).surface
        (fireTimerIfDue o ev.1 st).currentDraft
        (fireTimerIfDue o ev.1 st).drafts ev.1 ev.2).surface.fridayDraftDetected
        = st.surface.fridayDraftDetected := by
      rw [hflag, Bool.or_false, hdet1]
    simp only [hf, h1, hdc1, hlen1, hlen2]
    refine ⟨by simp, by omega⟩

theorem flushTimer_frame (o : Oracles) (st : TraceState) :
    (flushTimer o st).detections = st.detections ∧
    (flushTimer o st).drafts.length = st.drafts.length := by
  cases htm : st.surface.analysisTimer with
  | none => simp [flushTimer, htm]
  | some p =>
    obtain ⟨ft, cap⟩ := p
    simp only [flushTimer, htm]
    obtain ⟨_, h2, _, h4⟩ := fireTimerIfDue_frame o ft st
    exact ⟨h2, h4⟩

/-- C7: starting from a freshly attached compose surface, any trace of
content-change events invokes the detection handler at most once, and
the stored draft list (appended to only by `storeDraft`) grows by at
most one record. -/
theorem at_most_one_draft_per_surface (o : Oracles) (t0 : ℤ)
    (cd : Option Draft) (drafts0 : List DraftRecord)
    (analyses0 : List (ℤ × List Char)) (events : List (ℤ × List Char)) :
    (runTrace o
        { surface := initialSurface t0, currentDraft := cd,
          drafts := drafts0, analyses := analyses0, detections := 0 }
        events).detections ≤ 1 ∧
    (runTrace o
        { surface := initialSurface t0, currentDraft := cd,
          drafts := drafts0, analyses := analyses0, detections := 0 }
        events).drafts.length ≤ drafts0.length + 1 := by
  have hP := foldl_traceStep_invariant o
    (fun st => st.detections +
        (if st.surface.fridayDraftDetected = true then 0 else 1) = 1 ∧
      st.drafts.length = drafts0.length + st.detections)
    (fun st ev hst => by
      obtain ⟨c1, c2⟩ := traceStep_conserve o st ev
      exact ⟨by omega, by omega⟩)
    events
    { surface := initialSurface t0, currentDraft := cd,
      drafts := drafts0, analyses := analyses0, detections := 0 }
    ⟨by simp [initialSurface], by simp⟩
  obtain ⟨h1, h2⟩ := hP
  obtain ⟨hf1, hf2⟩ := flushTimer_frame o
    (events.foldl (traceStep o)
      { surface := initialSurface t0, currentDraft := cd,
        drafts := drafts0, analyses := analyses0, detections := 0 })
  rw [runTrace]
  constructor
  · omega
  · omega

theorem mergeAnalysis_status_editing (r : DraftRecord) (a : AnalysisData)
    (h : a.status = some "editing") :
    (mergeAnalysis r a).status = "editing" := by
  simp [mergeAnalysis, h]

theorem updateDraft_status (dId : String) (a : AnalysisData)
    (ha : a.status = some "editing") :
    ∀ drafts : List DraftRecord,
      (∀ r ∈ drafts, r.status = "pending" ∨ r.status = "editing") →
      ∀ r ∈ updateDraftWithAnalysis dId a drafts,
        r.status = "pending" ∨ r.status = "editing" := by
  intro drafts
  induction drafts with
  | nil => intro _ r hr; rw [updateDraft_nil] at hr; cases hr
  | cons x rest ih =>
    intro h r hr
    rw [updateDraft_cons] at hr
    by_cases hx : x.id = dId
    · rw [if_pos hx] at hr
      rcases List.mem_cons.mp hr with hr | hr
      · right; rw [hr]; exact mergeAnalysis_status_editing x a ha
      · exact h r (List.mem_cons_of_mem x hr)
    · rw [if_neg hx] at hr
      rcases List.mem_cons.mp hr with hr | hr
      · exact h r (hr ▸ List.mem_cons_self x rest)
      · exact ih (fun q hq => h q (List.mem_cons_of_mem x hq)) r hr

theorem analyzeStep_status (cd : Option Draft) (cap : List Char) (now : ℤ)
    (iso apiKey : String) (net : NetOutcome) (drafts : List DraftRecord)
    (h : ∀ r ∈ drafts, r.status = "pending" ∨ r.status = "editing") :
    ∀ r ∈ (analyzeCurrentEditsStep cd cap now iso apiKey net drafts).2.2,
      r.status = "pending" ∨ r.status = "editing" := by
  cases cd with
  | none => exact h
  | some d =>
    simp only [analyzeCurrentEditsStep]
    cases calculateEditPercentage d.originalText cap with
    | none => exact h
    | some p =>
      by_cases hp : p ≥ 10
      · simp only [if_pos hp]
        exact updateDraft_status d.id _ rfl drafts h
      · simp only [if_neg hp]
        exact h

theorem storeDraft_status (d : Draft) (drafts : List DraftRecord)
    (h : ∀ r ∈ drafts, r.status = "pending" ∨ r.status = "editing") :
    ∀ r ∈ storeDraft d drafts,
      r.status = "pending" ∨ r.status = "editing" := by
  intro r hr
  rw [storeDraft] at hr
  rcases List.mem_append.mp hr with hr | hr
  · exact h r hr
  · left
    rcases List.mem_singleton.mp hr with rfl
    rfl

theorem observerStep_drafts_cases (gid iso : String) (s : SurfaceState)
    (cd : Option Draft) (drafts : List DraftRecord) (t : ℤ)
    (text : List Char) :
    (observerStep gid iso s cd drafts t text).drafts = drafts ∨
    ∃ d, (observerStep gid iso s cd drafts t text).drafts =
      storeDraft d drafts := by
  by_cases htx : text = s.lastText
  · left; rw [observerStep_same_text gid iso s cd drafts t text htx]
  · simp only [observerStep, if_neg htx]
    split
    · right; exact ⟨_, rfl⟩
    · left; rfl

theorem fireTimerIfDue_status (o : Oracles) (deadline : ℤ) (st : TraceState)
    (h : ∀ r ∈ st.drafts, r.status = "pending" ∨ r.status = "editing") :
    ∀ r ∈ (fireTimerIfDue o deadline st).drafts,
      r.status = "pending" ∨ r.status = "editing" := by
  cases htm : st.surface.analysisTimer with
  | none => rw [fireTimerIfDue_none o deadline st htm]; exact h
  | some p =>
    obtain ⟨ft, cap⟩ := p
    simp only [fireTimerIfDue, htm]
    by_cases hle : ft ≤ deadline
    · rw [if_pos hle]
      exact analyzeStep_status st.currentDraft cap ft (o.iso ft) o.apiKey
        (o.net ft) st.drafts h
    · rw [if_neg hle]; exact h

theorem traceStep_status (o : Oracles) (st : TraceState) (ev : ℤ × List Char)
    (h : ∀ r ∈ st.drafts, r.status = "pending" ∨ r.status = "editing") :
    ∀ r ∈ (traceStep o st ev).drafts,
      r.status = "pending" ∨ r.status = "editing" := by
  have h1 := fireTimerIfDue_status o ev.1 st h
  simp only [traceStep]
  rcases observerStep_drafts_cases (o.gid ev.1) (o.iso ev.1)
      (fireTimerIfDue o ev.1 st).surface (fireTimerIfDue o ev.1 st).currentDraft
      (fireTimerIfDue o ev.1 st).drafts ev.1 ev.2 with hc | ⟨d, hc⟩
  · rw [hc]; exact h1
  · rw [hc]; exact storeDraft_status d _ h1

theorem flushTimer_status (o : Oracles) (st : TraceState)
    (h : ∀ r ∈ st.drafts, r.status = "pending" ∨ r.status = "editing") :
    ∀ r ∈ (flushTimer o st).drafts,
      r.status = "pending" ∨ r.status = "editing" := by
  cases htm : st.surface.analysisTimer with
  | none => rw [flushTimer_none o st htm]; exact h
  | some p =>
    obtain ⟨ft, cap⟩ := p
    simp only [flushTimer, htm]
    exact fireTimerIfDue_status o ft st h

/-- C9: every status value the tracker ever writes into the stored list
is `'pending'` (set by `storeDraft` at detection) or `'editing'` (set by
every analysis update); `'sent'` is never assigned on any code path,
even though the analysis merge does populate the `sentAt` and
`sendDelay` fields. -/
theorem draft_status_invariant (o : Oracles) (st : TraceState)
    (events : List (ℤ × List Char))
    (h : ∀ r ∈ st.drafts, r.status = "pending" ∨ r.status = "editing") :
    (∀ r ∈ (runTrace o st events).drafts,
      (r.status = "pending" ∨ r.status = "editing") ∧ r.status ≠ "sent") ∧
    ∀ (rec : DraftRecord) (a : AnalysisData),
      (mergeAnalysis rec a).sentAt = some a.sentAt ∧
      (mergeAnalysis rec a).sendDelay = some a.sendDelay := by
  constructor
  · have hfold := foldl_traceStep_invariant o
      (fun s => ∀ r ∈ s.drafts, r.status = "pending" ∨ r.status = "editing")
      (fun s ev hs => traceStep_status o s ev hs) events st h
    intro r hr
    have hok := flushTimer_status o (events.foldl (traceStep o) st) hfold r hr
    refine ⟨hok, ?_⟩
    rcases hok with hok | hok <;> rw [hok] <;> decide
  · intro rec a
    exact ⟨rfl, rfl⟩

/-- Witness for C9: a store holding a pending and an editing record,
run through a no-op event — the invariant instantiated at the first
record. -/
theorem draft_status_invariant_witness :
    (DraftRecord.status
        { id := "p1", originalText := ['a'], originalWordCount := 1,
          generatedAt := "g", timestamp := 0, status := "pending" } = "pending" ∨
      DraftRecord.status
        { id := "p1", originalText := ['a'], originalWordCount := 1,
          generatedAt := "g", timestamp := 0, status := "pending" } = "editing") ∧
    DraftRecord.status
        { id := "p1", originalText := ['a'], originalWordCount := 1,
          generatedAt := "g", timestamp := 0, status := "pending" } ≠ "sent" :=
  (draft_status_invariant
    { gid := fun _ => "id", iso := fun _ => "iso", apiKey := "",
      net := fun _ => NetOutcome.networkFailure }
    { surface := initialSurface 0, currentDraft := none,
      drafts :=
        [{ id := "p1", originalText := ['a'], originalWordCount := 1,
           generatedAt := "g", timestamp := 0, status := "pending" },
         { id := "e1", originalText := ['b'], originalWordCount := 1,
           generatedAt := "g", timestamp := 0, status := "editing" }],
      analyses := [], detections := 0 }
    [((100 : ℤ), [])] (by decide)).1
    { id := "p1", originalText := ['a'], originalWordCount := 1,
      generatedAt := "g", timestamp := 0, status := "pending" }
    (by decide)

/-- Core debounce lemma: from a tracked state (detected, live draft, any
pending timer consistent with the last change), a nonempty chain of
changed-text events spaced below the 3000 ms quiet duration produces
exactly one `analyzeCurrentEdits` invocation, at quiet-duration distance
from the last event and against the last event's text. -/
theorem debounce_trace_aux (o : Oracles) :
    ∀ (events : List (ℤ × List Char)) (st : TraceState),
      st.surface.fridayDraftDetected = true →
      st.currentDraft.isSome = true →
      (∀ ft cap, st.surface.analysisTimer = some (ft, cap) →
        ft = st.surface.lastChangeTime + 3000) →
      chainOk st.surface.lastText st.surface.lastChangeTime events = true →
      ∀ tn sn, events.getLast? = some (tn, sn) →
      (runTrace o st events).analyses = st.analyses ++ [(tn + 3000, sn)] := by
  intro events
  induction events with
  | nil =>
    intro st _ _ _ _ tn sn hlast
    simp at hlast
  | cons ev rest ih =>
    obtain ⟨t1, s1⟩ := ev
    intro st hdet hcd htimer hchain tn sn hlast
    simp only [chainOk, Bool.and_eq_true, decide_eq_true_eq] at hchain
    obtain ⟨⟨⟨hne, hlt⟩, hgap⟩, hrest⟩ := hchain
    have hskip : fireTimerIfDue o t1 st = st := by
      apply fireTimerIfDue_skip
      intro ft cap htm
      have := htimer ft cap htm
      omega
    have hstep : traceStep o st (t1, s1) =
        { surface :=
            { lastText := s1, lastChangeTime := t1,
              fridayDraftDetected := true,
              analysisTimer := some (t1 + 3000, s1) }
          currentDraft := st.currentDraft
          drafts := st.drafts
          analyses := st.analyses
          detections := st.detections } := by
      simp only [traceStep, hskip]
      rw [observerStep_tracked (o.gid t1) (o.iso t1) st.surface
        st.currentDraft st.drafts t1 s1 hdet hcd hne]
      rfl
    cases rest with
    | nil =>
      have hts : tn = t1 ∧ sn = s1 := by
        simp at hlast
        exact ⟨hlast.1.symm, hlast.2.symm⟩
      obtain ⟨ht, hs⟩ := hts
      rw [ht, hs]
      show (flushTimer o (List.foldl (traceStep o) st [(t1, s1)])).analyses = _
      rw [List.foldl_cons, List.foldl_nil, hstep]
      rw [flushTimer_fire o _ (t1 + 3000) s1 rfl]
    | cons ev2 rest2 =>
      have hrun : runTrace o st ((t1, s1) :: ev2 :: rest2) =
          runTrace o (traceStep o st (t1, s1)) (ev2 :: rest2) := rfl
      rw [hrun, hstep]
      refine ih
        { surface :=
            { lastText := s1, lastChangeTime := t1,
              fridayDraftDetected := true,
              analysisTimer := some (t1 + 3000, s1) }
          currentDraft := st.currentDraft
          drafts := st.drafts
          analyses := st.analyses
          detections := st.detections } rfl hcd ?_ hrest tn sn ?_
      · intro ft cap htm
        have h2 : some (t1 + 3000, s1) = some (ft, cap) := htm
        injection h2 with hp
        injection hp with h3 h4
        show ft = t1 + 3000
        omega
      · rw [List.getLast?_cons_cons] at hlast
        exact hlast

/-- C2: on a tracked (post-detection) surface, every content-change
event with genuinely different text replaces any pending analysis timer
by a fresh one for the 3000 ms quiet duration capturing the new text;
events with identical text change nothing; consequently a chain of
changes each under the quiet duration apart, followed by silence, yields
exactly one `analyzeCurrentEdits` invocation, evaluated against the text
observed at the final change. -/
theorem debounce_single_analysis :
    (∀ (gid iso : String) (s : SurfaceState) (cd : Option Draft)
        (drafts : List DraftRecord) (t : ℤ) (text : List Char),
      s.fridayDraftDetected = true → cd.isSome = true → text ≠ s.lastText →
      (observerStep gid iso s cd drafts t text).surface.analysisTimer =
        some (t + 3000, text)) ∧
    (∀ (gid iso : String) (s : SurfaceState) (cd : Option Draft)
        (drafts : List DraftRecord) (t : ℤ) (text : List Char),
      text = s.lastText →
      observerStep gid iso s cd drafts t text =
        { surface := s, currentDraft := cd, drafts := drafts,
          fired := false }) ∧
    (∀ (o : Oracles) (st : TraceState) (events : List (ℤ × List Char)),
      st.surface.fridayDraftDetected = true →
      st.currentDraft.isSome = true →
      (∀ ft cap, st.surface.analysisTimer = some (ft, cap) →
        ft = st.surface.lastChangeTime + 3000) →
      chainOk st.surface.lastText st.surface.lastChangeTime events = true →
      ∀ tn sn, events.getLast? = some (tn, sn) →
      (runTrace o st events).analyses = st.analyses ++ [(tn + 3000, sn)]) := by
  refine ⟨?_, ?_, ?_⟩
  · intro gid iso s cd drafts t text hdet hcd hne
    rw [observerStep_tracked gid iso s cd drafts t text hdet hcd hne]
  · intro gid iso s cd drafts t text h
    exact observerStep_same_text gid iso s cd drafts t text h
  · intro o st events h1 h2 h3 h4 tn sn h5
    exact debounce_trace_aux o events st h1 h2 h3 h4 tn sn h5

/-- Witness for C2: three changes 500 ms apart on a tracked surface,
then silence — exactly one analysis, against the third text. -/
theorem debounce_single_analysis_witness :
    (runTrace
        { gid := fun _ => "id", iso := fun _ => "iso", apiKey := "",
          net := fun _ => NetOutcome.networkFailure }
        { surface := { lastText := ['a'], lastChangeTime := 0,
                       fridayDraftDetected := true,
                       analysisTimer := some (3000, ['a']) },
          currentDraft := some { id := "d1", originalText := ['a'],
                                 originalWordCount := 1, generatedAt := "g",
                                 timestamp := 0 },
          drafts := [], analyses := [], detections := 1 }
        [(500, ['a', 'b']), (1000, ['a', 'c']),
          (1500, ['a', 'd'])]).analyses =
      [] ++ [((1500 : ℤ) + 3000, ['a', 'd'])] :=
  debounce_single_analysis.2.2
    { gid := fun _ => "id", iso := fun _ => "iso", apiKey := "",
      net := fun _ => NetOutcome.networkFailure }
    { surface := { lastText := ['a'], lastChangeTime := 0,
                   fridayDraftDetected := true,
                   analysisTimer := some (3000, ['a']) },
      currentDraft := some { id := "d1", originalText := ['a'],
                             originalWordCount := 1, generatedAt := "g",
                             timestamp := 0 },
      drafts := [], analyses := [], detections := 1 }
    [(500, ['a', 'b']), (1000, ['a', 'c']), (1500, ['a', 'd'])]
    rfl rfl
    (by intro ft cap h; simp at h; show ft = 0 + 3000; omega)
    (by decide) 1500 ['a', 'd'] rfl

end FridayAnalyzer
